import Mathlib

/-!
Shallow embedding of the `chasqui` distributed load generator
(file server, download client, load engine and driver helpers),
together with theorems checking the specification's claims.

Go strings are modelled as `List Char` (the inputs of interest are
ASCII); Go `int64`/`uint64` arithmetic is modelled on `Int`/`Nat`
with explicit two's-complement wrapping where the source can
overflow.
-/

namespace Chasqui

/-- Byte-size constants from `fileserver/server.go`:
`KB`, `MB`, `GB`, `TB` are `int64` values `1 << 10`, `1 << 20`, `1 << 30`, `1 << 40`. -/
def KB : Int := 2 ^ 10

/-- `MB = 1 << 20` (`fileserver/server.go`). -/
def MB : Int := 2 ^ 20

/-- `GB = 1 << 30` (`fileserver/server.go`). -/
def GB : Int := 2 ^ 30

/-- `TB = 1 << 40` (`fileserver/server.go`). -/
def TB : Int := 2 ^ 40

/-- `bufferSize = 1 * MB`: length in bytes of the shared payload buffer
`contentsBuffer` (`fileserver/server.go`). -/
def bufferSize : Nat := 2 ^ 20

/-- Two's-complement wrap of an integer into the `int64` range,
modelling Go's defined signed-overflow behaviour for `int64`. -/
def wrap64 (x : Int) : Int := (x + 2 ^ 63) % 2 ^ 64 - 2 ^ 63

/-- Value of a big-endian list of decimal digit characters. -/
def digitsToNat (ds : List Char) : Nat := ds.foldl (fun a c => 10 * a + (c.toNat - 48)) 0

/-- All characters are ASCII decimal digits. -/
def isDigits (ds : List Char) : Bool := ds.all Char.isDigit

/-- Signed value of a digit string under an optional leading minus sign. -/
def signedVal (neg : Bool) (ds : List Char) : Int :=
  if neg then -(digitsToNat ds : Int) else (digitsToNat ds : Int)

/-- Digits-and-range part of Go `strconv.ParseInt(s, 10, 64)`: a non-empty
run of decimal digits whose (possibly negated) value fits in `int64`. -/
def parseIntCore (neg : Bool) (ds : List Char) : Option Int :=
  if ds = [] then none
  else if ¬ isDigits ds then none
  else if signedVal neg ds < -(2 ^ 63) ∨ 2 ^ 63 - 1 < signedVal neg ds then none
  else some (signedVal neg ds)

/-- Model of Go `strconv.ParseInt(s, 10, 64)` restricted to its success set:
optional single `+`/`-` sign followed by a non-empty run of decimal digits,
whose value fits in `int64`; everything else (including range overflow,
which Go reports as `ErrRange`) is an error, modelled as `none`. -/
def parseInt64 : List Char → Option Int
  | [] => none
  | c :: rest =>
    if c = '-' then parseIntCore true rest
    else if c = '+' then parseIntCore false rest
    else parseIntCore false (c :: rest)

/-- First return value of Go `strconv.ParseUint(s, 10, 64)`, errors ignored
(as the caller in `fileserver/client.go` does): a non-empty all-digit string
yields its value capped at `2^64 - 1` (Go returns `MaxUint64` on `ErrRange`);
any other string yields `0` (Go returns `0` on `ErrSyntax`). -/
def goParseUint64 (s : List Char) : Nat :=
  if s = [] then 0
  else if isDigits s then min (digitsToNat s) (2 ^ 64 - 1) else 0

/-- Reinterpret a `uint64` value as `int64` (Go's `int64(bodyLength)` cast
in `fileserver/client.go`). -/
def int64OfUInt64 (v : Nat) : Int := if v < 2 ^ 63 then (v : Int) else (v : Int) - 2 ^ 64

/-- Suffix handling of `parseSize` (`fileserver/server.go`): strip at most one
trailing `K`, `M` or `G` and return the matching multiplication factor. -/
def sizeSuffix (s : List Char) : Int × List Char :=
  if s.getLast? = some 'K' then (KB, s.dropLast)
  else if s.getLast? = some 'M' then (MB, s.dropLast)
  else if s.getLast? = some 'G' then (GB, s.dropLast)
  else (1, s)

/-- Model of `parseSize` (`fileserver/server.go`): empty string is an error;
strip an optional `K`/`M`/`G` suffix; `strconv.ParseInt` the rest; multiply by
the factor with `int64` wrapping (`res *= factor`); reject results outside
`(0, TB]`. -/
def parseSize (s : List Char) : Option Int :=
  if s = [] then none
  else
    match parseInt64 (sizeSuffix s).2 with
    | Option.none => none
    | Option.some res =>
      if wrap64 (res * (sizeSuffix s).1) ≤ 0 ∨ TB < wrap64 (res * (sizeSuffix s).1) then none
      else some (wrap64 (res * (sizeSuffix s).1))

/-- Declarative acceptance relation for the amended size-parsing claim:
`s` is an optionally signed decimal digit string with at most one `K`/`M`/`G`
suffix, the signed digit value fits in `int64`, and the `int64`-wrapped
product with the suffix factor lies in `(0, TB]`; `v` is that wrapped
product. -/
def sizeSpec (s : List Char) (v : Int) : Prop :=
  ∃ (sgn ds suf : List Char) (neg : Bool) (factor : Int),
    s = sgn ++ ds ++ suf ∧
    ((sgn = [] ∧ neg = false) ∨ (sgn = ['+'] ∧ neg = false) ∨
      (sgn = ['-'] ∧ neg = true)) ∧
    ((suf = [] ∧ factor = 1) ∨ (suf = ['K'] ∧ factor = KB) ∨
      (suf = ['M'] ∧ factor = MB) ∨ (suf = ['G'] ∧ factor = GB)) ∧
    ds ≠ [] ∧ isDigits ds = true ∧
    -(2 ^ 63) ≤ signedVal neg ds ∧ signedVal neg ds ≤ 2 ^ 63 - 1 ∧
    v = wrap64 (signedVal neg ds * factor) ∧ 0 < v ∧ v ≤ TB

/-- Decimal digit character for a value below 10 (used to model Go's
`strconv.FormatInt(·, 10)` output digits). -/
def digitChar : Nat → Char
  | 0 => '0'
  | 1 => '1'
  | 2 => '2'
  | 3 => '3'
  | 4 => '4'
  | 5 => '5'
  | 6 => '6'
  | 7 => '7'
  | 8 => '8'
  | 9 => '9'
  | _ => '*'

/-- Model of Go `strconv.FormatInt(n, 10)` for non-negative values: the
decimal digits of `n`, most significant first. -/
def formatNat (n : Nat) : List Char :=
  if n = 0 then ['0'] else (Nat.digits 10 n).reverse.map digitChar

/-- Model of Go's `fmt.Sprintf("%d", size)` on an integer. -/
def formatInt (i : Int) : List Char :=
  if i < 0 then '-' :: formatNat (-i).toNat else formatNat i.toNat

/-! ## Server: `serveFile` body streaming (`fileserver/server.go`) -/

/-- Reader position after the `if rdr.Len() == 0 { rdr.Seek(0, 0) }` step of
the copy loop: the position wraps back to the start of the payload buffer when
the reader is exhausted. -/
def bufPos (pos : Nat) : Nat := if bufferSize - pos = 0 then 0 else pos

/-- The `(offset, length)` slices of the payload buffer copied by the loop
`for remain, sent := size, 0; remain > 0; remain -= sent { ... }` of
`serveFile`, in order: each iteration wraps the reader if exhausted, then
copies `min(rdr.Len(), remain)` bytes. The model assumes each `io.CopyN`
succeeds (the no-write-error path). -/
def serveBodyChunks (pos remain : Nat) : List (Nat × Nat) :=
  if remain = 0 then []
  else
    (bufPos pos, min (bufferSize - bufPos pos) remain) ::
      serveBodyChunks (bufPos pos + min (bufferSize - bufPos pos) remain)
        (remain - min (bufferSize - bufPos pos) remain)
termination_by remain
decreasing_by
  have hbs : bufferSize = 1048576 := rfl
  unfold bufPos
  by_cases hp : bufferSize - pos = 0 <;> simp only [hp, if_true, if_false] <;> omega

/-- The byte stream written as response body: concatenation of the copied
slices of the payload buffer `buf` (the process-wide `contentsBuffer`). -/
def serveBodyBytes (buf : List UInt8) (chunks : List (Nat × Nat)) : List UInt8 :=
  (chunks.map (fun pc => (buf.drop pc.1).take pc.2)).flatten

/-! ## Checksum registry (`fileserver/client.go`, shared by the server) -/

/-- Lowercasing of a Go string (`strings.ToLower`), on ASCII input. -/
def toLowerChars (s : List Char) : List Char := s.map Char.toLower

/-- Canonical names in `checksumMap`. -/
def checksumNames : List (List Char) := ["sha256".data, "sha512".data]

/-- Model of `isChecksumAvailable` / `getChecksumByName` success
(`fileserver/client.go`): the lowercased name is one of the registered
canonical names. -/
def isChecksumAvailable (name : List Char) : Bool :=
  checksumNames.contains (toLowerChars name)

/-- Observable result of `serveFile` (`fileserver/server.go`): HTTP status,
the buffer slices written as body, the `X-Content-Length` trailer, and
whether an `X-Checksum-Value` trailer is announced. -/
structure ServeFileResult where
  status : Nat
  chunks : List (Nat × Nat)
  trailerContentLength : Option (List Char)
  hasChecksumTrailer : Bool

/-- Model of `serveFile` (`fileserver/server.go`) on the no-write-error path:
an unsupported non-empty checksum algorithm yields 400 (the "should not
happen" branch); otherwise the body slices are streamed and the
`X-Content-Length` trailer is set to `strconv.FormatInt(size, 10)`. -/
def serveFile (size : Nat) (checksumAlg : List Char) : ServeFileResult :=
  if checksumAlg ≠ [] ∧ ¬ isChecksumAvailable checksumAlg then
    { status := 400, chunks := [], trailerContentLength := none, hasChecksumTrailer := false }
  else
    { status := 200
      chunks := serveBodyChunks 0 size
      trailerContentLength := some (formatNat size)
      hasChecksumTrailer := checksumAlg ≠ [] }

/-! ## Client transport: `DownloadFile` (`fileserver/client.go`) -/

/-- `ChecksumMode` constant `ChecksumNone` (Go `iota`). -/
def ChecksumNone : Nat := 0

/-- `ChecksumMode` constant `ChecksumClientOnly`. -/
def ChecksumClientOnly : Nat := 1

/-- `ChecksumMode` constant `ChecksumServerOnly`. -/
def ChecksumServerOnly : Nat := 2

/-- `ChecksumMode` constant `ChecksumClientAndServer`. -/
def ChecksumClientAndServer : Nat := 3

/-- `ChecksumAlgorithm` constant `SHA256` (Go `iota`: `NONE = 0, SHA256 = 1, SHA512 = 2`). -/
def SHA256 : Nat := 1

/-- `ChecksumAlgorithm` constant `SHA512`. -/
def SHA512 : Nat := 2

/-- Model of `getChecksumName` (`fileserver/client.go`): the canonical name
registered in `checksumMap` for the key, `""` for unknown keys. -/
def getChecksumName (algo : Nat) : List Char :=
  if algo = SHA256 then "sha256".data
  else if algo = SHA512 then "sha512".data
  else []

/-- The request URL built by `DownloadFile`. Query parameters are listed in
`url.Values.Encode` order (sorted by key: `checksum` < `id` < `size`). -/
structure URLModel where
  scheme : List Char
  host : List Char
  path : List Char
  query : List (List Char × List Char)

/-- Pre-request phase of `DownloadFile` (`fileserver/client.go`): resolve the
algorithm name; `none` models the fail-fast return before any request is
issued; otherwise the URL `https://serverAddr/file?…` that the GET is sent
to. -/
def downloadRequestURL (serverAddr fileID : List Char) (size : Int)
    (chkMode chkAlgo : Nat) : Option URLModel :=
  if chkMode ≠ ChecksumNone ∧ getChecksumName chkAlgo = [] then none
  else
    some { scheme := "https".data
           host := serverAddr
           path := "/file".data
           query :=
             (if chkMode = ChecksumServerOnly ∨ chkMode = ChecksumClientAndServer
              then [("checksum".data, getChecksumName chkAlgo)] else [])
             ++ [("id".data, fileID), ("size".data, formatInt size)] }

/-- The parts of an HTTP response that `DownloadFile` inspects. Go's
`Header.Get`/`Trailer.Get` return `""` for an absent field, so absence is
modelled by the empty string. -/
structure RespModel where
  status : Nat
  headerChecksumAlgorithm : List Char
  trailerContentLength : List Char
  trailerChecksumValue : List Char
  errorBody : List Char
deriving DecidableEq

/-- The distinct error outcomes (`report.Err`) of `DownloadFile`, in source
order of the early returns. -/
inductive DlErr where
  | invalidAlgorithm
  | transportFailure
  | httpStatus (body : List Char)
  | serverAlgoMismatch (serverAlgo : List Char)
  | missingContentLength
  | lengthMismatch (bodyLength : Nat) (received : Nat)
  | missingChecksumValue
  | checksumMismatch (client server : List Char)
deriving DecidableEq

/-- The observable `DownloadReport` fields the claims are about. -/
structure ReportModel where
  checksum : List Char
  err : Option DlErr
deriving DecidableEq

set_option linter.unusedVariables false in
/-- Model of `Client.DownloadFile` (`fileserver/client.go`) from the point the
request is answered. The parameters beyond the Go arguments model the
environment: `resp` is the server's response (`none` models an error from
`c.Do`), `received` the byte count returned by `io.Copy(dst, src)`, `copyErr`
whether that copy returned a non-nil error (the source never inspects it),
and `localHexRaw` the string `hex.EncodeToString(chksumer.Sum(nil))` of the
locally hashed received bytes (meaningful only when a local hasher is
installed, i.e. for `CLIENT_ONLY` and `BOTH`). -/
def downloadFileModel (chkMode chkAlgo : Nat) (resp : Option RespModel)
    (received : Nat) (copyErr : Bool) (localHexRaw : List Char) : ReportModel :=
  if chkMode ≠ ChecksumNone ∧ getChecksumName chkAlgo = [] then
    { checksum := [], err := some .invalidAlgorithm }
  else
    match resp with
    | Option.none => { checksum := [], err := some .transportFailure }
    | Option.some r =>
      if r.status ≠ 200 then { checksum := [], err := some (.httpStatus r.errorBody) }
      else if chkMode = ChecksumClientAndServer ∧
          getChecksumName chkAlgo ≠ toLowerChars r.headerChecksumAlgorithm then
        { checksum := [], err := some (.serverAlgoMismatch (toLowerChars r.headerChecksumAlgorithm)) }
      else
        -- `clientCheckSum` is non-empty only when a local hasher was installed
        let clientCheckSum :=
          if chkMode = ChecksumClientOnly ∨ chkMode = ChecksumClientAndServer
          then toLowerChars localHexRaw else []
        if r.trailerContentLength = [] then
          { checksum := [], err := some .missingContentLength }
        else if int64OfUInt64 (goParseUint64 r.trailerContentLength) ≠ (received : Int) then
          { checksum := [],
            err := some (.lengthMismatch (goParseUint64 r.trailerContentLength) received) }
        else
          -- the `X-Checksum-Value` trailer is read only in BOTH mode
          let serverChecksum :=
            if chkMode = ChecksumClientAndServer then toLowerChars r.trailerChecksumValue else []
          if chkMode = ChecksumClientAndServer ∧ serverChecksum = [] then
            { checksum := [], err := some .missingChecksumValue }
          else if chkMode = ChecksumClientAndServer ∧ clientCheckSum ≠ serverChecksum then
            { checksum := [], err := some (.checksumMismatch clientCheckSum serverChecksum) }
          else
            { checksum :=
                if chkMode ≠ ChecksumNone then
                  getChecksumName chkAlgo ++ ':' ::
                    (if serverChecksum ≠ [] then serverChecksum else clientCheckSum)
                else []
              err := none }

/-! ## Client load engine (`client.go`, worker file) -/

/-- The fields of the internal work item `DownloadReq` that the worker logic
reads (sequence number, sampled size, absolute deadline). Time is modelled as
an integer timestamp. -/
structure DownloadReqM where
  seqNumber : Nat
  size : Nat
  notAfter : Int
deriving DecidableEq

/-- The fields of `DownloadResp` the claims are about. -/
structure DownloadRespM where
  seqNumber : Nat
  size : Nat
  err : Option DlErr
deriving DecidableEq

/-- Model of `processDownloadRequest`: performs
`DownloadFile(…, ChecksumNone, SHA256, ioutil.Discard)` and wraps the report
into a `DownloadResp` carrying the request's sequence number and size.
The `resp`/`received`/`copyErr`/`localHexRaw` parameters model the
environment exactly as in `downloadFileModel`. -/
def processDownloadRequest (req : DownloadReqM) (resp : Option RespModel)
    (received : Nat) (copyErr : Bool) (localHexRaw : List Char) : DownloadRespM :=
  { seqNumber := req.seqNumber
    size := req.size
    err := (downloadFileModel ChecksumNone SHA256 resp received copyErr localHexRaw).err }

/-- One iteration of the `clientWorker` loop for one received item: if the
time observed on receipt (`now`, i.e. `time.Now()`) is strictly after the
item's `notAfter` deadline, the item is dropped (`continue`) and nothing is
sent to the reply channel; otherwise exactly the one response built by
`processDownloadRequest` is sent. The returned list is what this item
contributes to the reply channel. -/
def clientWorkerStep (now : Int) (req : DownloadReqM) (resp : Option RespModel)
    (received : Nat) (copyErr : Bool) (localHexRaw : List Char) : List DownloadRespM :=
  if req.notAfter < now then []
  else [processDownloadRequest req resp received copyErr localHexRaw]

/-- The whole `clientWorker` loop (`for req := range reqChan`): concatenation
of the per-item contributions, each item paired with the time observed on its
receipt and its download environment. -/
def clientWorkerRun :
    List (Int × DownloadReqM × Option RespModel × Nat × Bool × List Char) →
      List DownloadRespM
  | [] => []
  | (now, req, resp, received, copyErr, localHexRaw) :: rest =>
      clientWorkerStep now req resp received copyErr localHexRaw ++ clientWorkerRun rest

/-- Modelled from the spec: `minInt`, the two-argument integer minimum used
by `clientProcessLoadRequest` to clamp the pool size (the spec's "clamp to
`[1, 1000 × NCPU]`"); the helper itself is not among the sources, only its
caller is. -/
def minInt (x y : Int) : Int := min x y

/-- Worker-pool sizing of `clientProcessLoadRequest` (`client.go`):
`numWorkers := req.Concurrency; if numWorkers <= 0 { numWorkers = 2 * NumCPU };
numWorkers = minInt(numWorkers, 1000 * NumCPU)`. -/
def numWorkersModel (concurrency ncpu : Int) : Int :=
  minInt (if concurrency ≤ 0 then 2 * ncpu else concurrency) (1000 * ncpu)

/-! ## Driver helpers (`main.go`) -/

/-- Model of `strings.Split(s, ",")`: the substrings between commas; splitting
the empty string yields one empty component. -/
def splitComma : List Char → List (List Char)
  | [] => [[]]
  | c :: rest =>
    if c = ',' then [] :: splitComma rest
    else
      match splitComma rest with
      | [] => [[c]]
      | r :: rs => (c :: r) :: rs

/-- Model of `splitAndClean` (`main.go`): split on commas, insert every
component as a key of a map, and return the map's keys. Go's map iteration
order is unspecified; the model returns the keys in first-occurrence order,
an admissible order carrying the same key set. -/
def splitAndClean (s : List Char) : List (List Char) :=
  (splitComma s).dedup

/-! ## Helper lemmas: decimal formatting -/

theorem digitChar_isDigit {d : Nat} (h : d < 10) : (digitChar d).isDigit = true := by
  interval_cases d <;> decide

theorem digitChar_toNat {d : Nat} (h : d < 10) : (digitChar d).toNat - 48 = d := by
  interval_cases d <;> decide

theorem foldl_digitChar (l : List Nat) (hl : ∀ d ∈ l, d < 10) (acc : Nat) :
    List.foldl (fun a c => 10 * a + (c.toNat - 48)) acc (l.reverse.map digitChar) =
      acc * 10 ^ l.length + Nat.ofDigits 10 l := by
  induction l generalizing acc with
  | nil => simp
  | cons d t ih =>
    have hd : d < 10 := hl d (List.mem_cons_self d t)
    have ht : ∀ x ∈ t, x < 10 := fun x hx => hl x (List.mem_cons_of_mem d hx)
    simp only [List.reverse_cons, List.map_append, List.foldl_append, List.map_cons,
      List.map_nil, List.foldl_cons, List.foldl_nil, ih ht acc, Nat.ofDigits_cons,
      List.length_cons, digitChar_toNat hd]
    ring

/-- `formatNat` is correct: it produces a digit string whose decimal value is `n`. -/
theorem formatNat_spec (n : Nat) :
    isDigits (formatNat n) = true ∧ digitsToNat (formatNat n) = n := by
  unfold formatNat
  by_cases h : n = 0
  · subst h; exact ⟨by decide, by decide⟩
  · simp only [h, if_false]
    have hd : ∀ d ∈ Nat.digits 10 n, d < 10 :=
      fun d hdm => Nat.digits_lt_base (by norm_num) hdm
    constructor
    · simp only [isDigits, List.all_eq_true, List.mem_map, List.mem_reverse]
      rintro c ⟨d, hdm, rfl⟩
      exact digitChar_isDigit (hd d hdm)
    · have := foldl_digitChar (Nat.digits 10 n) hd 0
      simpa [digitsToNat, Nat.ofDigits_digits] using this

/-! ## Helper lemmas: the `serveFile` copy loop -/

theorem bufPos_remaining_ne_zero (pos : Nat) : bufferSize - bufPos pos ≠ 0 := by
  have hbs : bufferSize = 1048576 := rfl
  unfold bufPos
  by_cases hp : bufferSize - pos = 0 <;> simp only [hp, if_true, if_false] <;> omega

theorem bufPos_le (pos : Nat) : bufPos pos ≤ bufferSize := by
  unfold bufPos
  by_cases hp : bufferSize - pos = 0 <;> simp only [hp, if_true, if_false] <;> omega

theorem serveBodyChunks_sum (remain : Nat) :
    ∀ pos, ((serveBodyChunks pos remain).map Prod.snd).sum = remain := by
  induction remain using Nat.strong_induction_on with
  | _ remain ih =>
    intro pos
    rw [serveBodyChunks]
    by_cases h : remain = 0
    · simp [h]
    · have h1 := bufPos_remaining_ne_zero pos
      have hlt : remain - min (bufferSize - bufPos pos) remain < remain := by omega
      simp only [h, if_false, List.map_cons, List.sum_cons,
        ih _ hlt (bufPos pos + min (bufferSize - bufPos pos) remain)]
      omega

theorem serveBodyChunks_valid (remain : Nat) :
    ∀ pos pc, pc ∈ serveBodyChunks pos remain → pc.1 + pc.2 ≤ bufferSize ∧ 0 < pc.2 := by
  induction remain using Nat.strong_induction_on with
  | _ remain ih =>
    intro pos pc hpc
    rw [serveBodyChunks] at hpc
    by_cases h : remain = 0
    · simp [h] at hpc
    · have h1 := bufPos_remaining_ne_zero pos
      have h2 := bufPos_le pos
      have hlt : remain - min (bufferSize - bufPos pos) remain < remain := by omega
      simp only [h, if_false, List.mem_cons] at hpc
      rcases hpc with rfl | hpc
      · constructor <;> simp <;> omega
      · exact ih _ hlt _ pc hpc

theorem serveBodyBytes_length (buf : List UInt8) (size : Nat)
    (hbuf : buf.length = bufferSize) :
    (serveBodyBytes buf (serveBodyChunks 0 size)).length = size := by
  unfold serveBodyBytes
  rw [List.length_flatten, List.map_map]
  have hmap : (serveBodyChunks 0 size).map (List.length ∘ fun pc => (buf.drop pc.1).take pc.2) =
      (serveBodyChunks 0 size).map Prod.snd := by
    apply List.map_congr_left
    intro pc hpc
    have hv := serveBodyChunks_valid size 0 pc hpc
    simp only [Function.comp_apply, List.length_take, List.length_drop, hbuf]
    omega
  rw [hmap, serveBodyChunks_sum]

/-! ## Claim theorems -/

set_option linter.unusedVariables false in
/-- **C1.** For every size in `(0, 1 TiB]` accepted by the server's query
validation (any validated checksum algorithm), `serveFile` responds 200 and
writes exactly `size` body bytes — obtained by copying slices of the shared
payload buffer that stay within its bounds, wrapping at the buffer end — and
sets the `X-Content-Length` trailer to the decimal representation of
`size`. The size bounds are the claim's hypotheses; the property holds for
every positive size. -/
theorem C1_serveFile_size_and_trailer (size : Nat) (buf : List UInt8) (alg : List Char)
    (hpos : 0 < size) (hub : (size : Int) ≤ TB) (hbuf : buf.length = bufferSize)
    (halg : alg = [] ∨ isChecksumAvailable alg = true) :
    (serveFile size alg).status = 200 ∧
    (serveBodyBytes buf (serveFile size alg).chunks).length = size ∧
    (∀ pc ∈ (serveFile size alg).chunks, pc.1 + pc.2 ≤ bufferSize ∧ 0 < pc.2) ∧
    ∃ ds, (serveFile size alg).trailerContentLength = some ds ∧
      isDigits ds = true ∧ digitsToNat ds = size := by
  have hcond : ¬ (alg ≠ [] ∧ ¬ isChecksumAvailable alg = true) := by
    rcases halg with h | h <;> simp [h]
  have hserve : serveFile size alg =
      { status := 200
        chunks := serveBodyChunks 0 size
        trailerContentLength := some (formatNat size)
        hasChecksumTrailer := alg ≠ [] } := by
    unfold serveFile
    rw [if_neg hcond]
  rw [hserve]
  refine ⟨rfl, serveBodyBytes_length buf size hbuf, ?_, formatNat size, rfl, formatNat_spec size⟩
  exact fun pc hpc => serveBodyChunks_valid size 0 pc hpc

/-- Witness for C1 at `size = 3`, no checksum, a concrete 1 MiB buffer. -/
theorem C1_witness :
    (serveFile 3 []).status = 200 ∧
    (serveBodyBytes (List.replicate bufferSize 0) (serveFile 3 []).chunks).length = 3 ∧
    (∀ pc ∈ (serveFile 3 []).chunks, pc.1 + pc.2 ≤ bufferSize ∧ 0 < pc.2) ∧
    ∃ ds, (serveFile 3 []).trailerContentLength = some ds ∧
      isDigits ds = true ∧ digitsToNat ds = 3 :=
  C1_serveFile_size_and_trailer 3 (List.replicate bufferSize 0) []
    (by decide) (by norm_num [TB]) (by simp) (Or.inl rfl)

/-- **C7.** The worker-pool size is `2 × NCPU` when `Concurrency` is 0, always
lies in `[1, 1000 × NCPU]`, and any requested concurrency above
`1000 × NCPU` is clamped down to `1000 × NCPU` (NCPU ≥ 1). -/
theorem C7_numWorkers (concurrency ncpu : Int) (hncpu : 1 ≤ ncpu) :
    (concurrency = 0 → numWorkersModel concurrency ncpu = 2 * ncpu) ∧
    1 ≤ numWorkersModel concurrency ncpu ∧
    numWorkersModel concurrency ncpu ≤ 1000 * ncpu ∧
    (1000 * ncpu < concurrency → numWorkersModel concurrency ncpu = 1000 * ncpu) := by
  have h2 : numWorkersModel concurrency ncpu =
      min (if concurrency ≤ 0 then 2 * ncpu else concurrency) (1000 * ncpu) := rfl
  by_cases hc : concurrency ≤ 0
  · rw [h2, if_pos hc]
    refine ⟨fun _ => ?_, ?_, ?_, fun hgt => ?_⟩ <;> omega
  · rw [h2, if_neg hc]
    refine ⟨fun h0 => absurd h0 (by omega), ?_, ?_, fun hgt => ?_⟩ <;> omega

/-- Witness for C7 at `Concurrency = 0`, `NCPU = 4`. -/
theorem C7_witness :
    ((0 : Int) = 0 → numWorkersModel 0 4 = 2 * 4) ∧
    1 ≤ numWorkersModel 0 4 ∧ numWorkersModel 0 4 ≤ 1000 * 4 ∧
    (1000 * 4 < (0 : Int) → numWorkersModel 0 4 = 1000 * 4) :=
  C7_numWorkers 0 4 (by norm_num)

/-- **C8.** `splitAndClean` returns a duplicate-free list whose underlying set
is exactly the set of comma-separated components of the input; in particular
`splitAndClean "a,b,a,c"` has the set `{a, b, c}`. -/
theorem C8_splitAndClean_dedup :
    (∀ s : List Char,
      (splitAndClean s).toFinset = (splitComma s).toFinset ∧ (splitAndClean s).Nodup) ∧
    (splitAndClean "a,b,a,c".data).toFinset = {"a".data, "b".data, "c".data} := by
  refine ⟨fun s => ⟨?_, List.nodup_dedup _⟩, by decide⟩
  ext a
  simp [splitAndClean, List.mem_dedup]

/-- **C9.** For every item a worker receives: if the time observed on receipt
is past the item's `notAfter` deadline, the worker sends nothing to the reply
channel; otherwise it sends exactly one `DownloadResp`, carrying the item's
sequence number. -/
theorem C9_worker_deadline (now : Int) (req : DownloadReqM) (resp : Option RespModel)
    (received : Nat) (copyErr : Bool) (localHexRaw : List Char) :
    (req.notAfter < now →
      clientWorkerStep now req resp received copyErr localHexRaw = []) ∧
    (¬ req.notAfter < now →
      clientWorkerStep now req resp received copyErr localHexRaw =
        [processDownloadRequest req resp received copyErr localHexRaw] ∧
      ∀ r ∈ clientWorkerStep now req resp received copyErr localHexRaw,
        r.seqNumber = req.seqNumber) := by
  constructor
  · intro h
    simp [clientWorkerStep, h]
  · intro h
    refine ⟨by simp [clientWorkerStep, h], fun r hr => ?_⟩
    simp only [clientWorkerStep, if_neg h, List.mem_singleton] at hr
    rw [hr]
    rfl

/-- Witness for C9: an item received before its deadline yields exactly one
response, which carries its sequence number. -/
theorem C9_witness :
    clientWorkerStep 2 ⟨7, 100, 3⟩ none 0 false [] =
      [processDownloadRequest ⟨7, 100, 3⟩ none 0 false []] ∧
    ∀ r ∈ clientWorkerStep 2 ⟨7, 100, 3⟩ none 0 false [], r.seqNumber = (7 : Nat) :=
  (C9_worker_deadline 2 ⟨7, 100, 3⟩ none 0 false []).2 (by decide)

/-- **C5.** `DownloadFile` resolves the algorithm name from the key and fails
fast — no request is issued, the report has the invalid-algorithm error —
exactly when the mode is not NONE and the resolved name is empty; otherwise
the request URL is `https://serverAddr/file` with `id` and `size` query
parameters and a `checksum` parameter present iff the mode is SERVER_ONLY or
BOTH. -/
theorem C5_request_url (serverAddr fileID : List Char) (size : Int) (chkMode chkAlgo : Nat) :
    (downloadRequestURL serverAddr fileID size chkMode chkAlgo = none ↔
      chkMode ≠ ChecksumNone ∧ getChecksumName chkAlgo = []) ∧
    (∀ resp received copyErr localHexRaw,
      downloadRequestURL serverAddr fileID size chkMode chkAlgo = none →
      (downloadFileModel chkMode chkAlgo resp received copyErr localHexRaw).err =
        some .invalidAlgorithm) ∧
    (∀ u, downloadRequestURL serverAddr fileID size chkMode chkAlgo = some u →
      u.scheme = "https".data ∧ u.host = serverAddr ∧ u.path = "/file".data ∧
      ("id".data, fileID) ∈ u.query ∧ ("size".data, formatInt size) ∈ u.query ∧
      ((∃ w, ("checksum".data, w) ∈ u.query) ↔
        (chkMode = ChecksumServerOnly ∨ chkMode = ChecksumClientAndServer))) := by
  by_cases hff : chkMode ≠ ChecksumNone ∧ getChecksumName chkAlgo = []
  · refine ⟨by simp [downloadRequestURL, hff], ?_, ?_⟩
    · intro resp received copyErr localHexRaw _
      simp [downloadFileModel, hff]
    · intro u hu
      rw [downloadRequestURL, if_pos hff] at hu
      simp at hu
  · refine ⟨by simp [downloadRequestURL, hff], ?_, ?_⟩
    · intro resp received copyErr localHexRaw hnone
      rw [downloadRequestURL, if_neg hff] at hnone
      simp at hnone
    · intro u hu
      rw [downloadRequestURL, if_neg hff] at hu
      injection hu with hu
      subst hu
      refine ⟨rfl, rfl, rfl, ?_, ?_, ?_⟩
      · by_cases hm : chkMode = ChecksumServerOnly ∨ chkMode = ChecksumClientAndServer <;>
          simp [hm]
      · by_cases hm : chkMode = ChecksumServerOnly ∨ chkMode = ChecksumClientAndServer <;>
          simp [hm]
      · by_cases hm : chkMode = ChecksumServerOnly ∨ chkMode = ChecksumClientAndServer
        · simp only [hm, iff_true, if_pos hm]
          exact ⟨getChecksumName chkAlgo, by simp⟩
        · simp only [hm, iff_false]
          rintro ⟨w, hw⟩
          simp [hm] at hw

/-- Witness for C5: in mode SERVER_ONLY with SHA-256 a request is issued and
its URL carries `id`, `size` and a `checksum` query parameter. -/
theorem C5_witness :
    downloadRequestURL "srv".data "f1".data 7 ChecksumServerOnly SHA256 =
      some { scheme := "https".data, host := "srv".data, path := "/file".data
             query := [("checksum".data, "sha256".data),
                       ("id".data, "f1".data), ("size".data, formatInt 7)] } ∧
    ("id".data, "f1".data) ∈ [("checksum".data, "sha256".data),
      ("id".data, "f1".data), ("size".data, formatInt 7)] ∧
    ∃ w, ("checksum".data, w) ∈ [("checksum".data, "sha256".data),
      ("id".data, "f1".data), ("size".data, formatInt 7)] := by
  have h := (C5_request_url "srv".data "f1".data 7 ChecksumServerOnly SHA256).2.2
    { scheme := "https".data, host := "srv".data, path := "/file".data
      query := [("checksum".data, "sha256".data),
                ("id".data, "f1".data), ("size".data, formatInt 7)] } rfl
  exact ⟨rfl, h.2.2.2.1, h.2.2.2.2.2.mpr (Or.inl rfl)⟩

/-- **C3.** In mode BOTH with a valid algorithm key and a 200 response:
a case-insensitive mismatch between the `X-Checksum-Algorithm` header and the
requested name fails the download; once the header and length checks pass,
the `X-Checksum-Value` trailer is required; the lowercased locally computed
hash must equal the lowercased trailer, else failure; and on success the
server-reported and client-computed values agree. -/
theorem C3_both_mode_checks (chkAlgo : Nat) (r : RespModel) (received : Nat)
    (copyErr : Bool) (localHexRaw : List Char)
    (halg : getChecksumName chkAlgo ≠ []) (hst : r.status = 200) :
    (toLowerChars r.headerChecksumAlgorithm ≠ getChecksumName chkAlgo →
      (downloadFileModel ChecksumClientAndServer chkAlgo (some r) received copyErr
          localHexRaw).err =
        some (.serverAlgoMismatch (toLowerChars r.headerChecksumAlgorithm))) ∧
    (toLowerChars r.headerChecksumAlgorithm = getChecksumName chkAlgo →
     r.trailerContentLength ≠ [] →
     int64OfUInt64 (goParseUint64 r.trailerContentLength) = (received : Int) →
      (r.trailerChecksumValue = [] →
        (downloadFileModel ChecksumClientAndServer chkAlgo (some r) received copyErr
            localHexRaw).err = some .missingChecksumValue) ∧
      (toLowerChars localHexRaw ≠ toLowerChars r.trailerChecksumValue →
        (downloadFileModel ChecksumClientAndServer chkAlgo (some r) received copyErr
            localHexRaw).err ≠ none)) ∧
    ((downloadFileModel ChecksumClientAndServer chkAlgo (some r) received copyErr
        localHexRaw).err = none →
      toLowerChars localHexRaw = toLowerChars r.trailerChecksumValue) := by
  have hne : ¬ (ChecksumClientAndServer ≠ ChecksumNone ∧ getChecksumName chkAlgo = []) := by
    simp [halg]
  have hst' : ¬ r.status ≠ 200 := by simp [hst]
  refine ⟨?_, ?_, ?_⟩
  · intro hhdr
    simp [downloadFileModel, hne, hst', hhdr, Ne.symm hhdr]
  · intro hhdr hcl hlen
    have hhdr2 : getChecksumName chkAlgo = toLowerChars r.headerChecksumAlgorithm := hhdr.symm
    have halg2 : toLowerChars r.headerChecksumAlgorithm ≠ [] := hhdr2 ▸ halg
    constructor
    · intro hcv
      have hcv' : toLowerChars r.trailerChecksumValue = [] := by
        simp [toLowerChars, hcv]
      simp [downloadFileModel, hne, hst', hhdr2, halg2, hcl, hlen, hcv']
    · intro hmis
      by_cases hcv : toLowerChars r.trailerChecksumValue = []
      · simp [downloadFileModel, hne, hst', hhdr2, halg2, hcl, hlen, hcv]
      · simp [downloadFileModel, hne, hst', hhdr2, halg2, hcl, hlen, hcv, hmis]
  · intro hok
    by_contra hneq
    revert hok
    by_cases hhdr : getChecksumName chkAlgo = toLowerChars r.headerChecksumAlgorithm
    · have halg2 : toLowerChars r.headerChecksumAlgorithm ≠ [] := hhdr ▸ halg
      by_cases hcl : r.trailerContentLength = []
      · simp [downloadFileModel, hne, hst', hhdr, halg2, hcl]
      · by_cases hlen : int64OfUInt64 (goParseUint64 r.trailerContentLength) = (received : Int)
        · by_cases hcv : toLowerChars r.trailerChecksumValue = []
          · simp [downloadFileModel, hne, hst', hhdr, halg2, hcl, hlen, hcv]
          · simp [downloadFileModel, hne, hst', hhdr, halg2, hcl, hlen, hcv, hneq]
        · simp [downloadFileModel, hne, hst', hhdr, halg2, hcl, hlen]
    · simp [downloadFileModel, hne, hst', hhdr]

/-- Witness for C3: on a successful BOTH-mode download (uppercase `SHA256`
header, trailer `"ABC"`, local hash `"abc"`) the two checksum values agree. -/
theorem C3_witness :
    toLowerChars "abc".data = toLowerChars "ABC".data :=
  (C3_both_mode_checks SHA256 ⟨200, "SHA256".data, "5".data, "ABC".data, []⟩ 5 false
    "abc".data (by decide) rfl).2.2 (by decide)

/-- **C4 counterexample.** With a 200 response whose `X-Content-Length`
trailer is the non-numeric string `"abc"` and a body copy of 0 bytes,
`DownloadFile` reports success: `strconv.ParseUint`'s error is discarded, so
the malformed trailer counts as 0 and matches the copied count, although the
trailer's value `"abc"` is present and is not the decimal representation
of 0. Under the claim, a trailer that does not equal the copied byte count
must fail. -/
theorem C4_counterexample :
    (downloadFileModel ChecksumNone SHA256
        (some { status := 200, headerChecksumAlgorithm := []
                trailerContentLength := "abc".data, trailerChecksumValue := []
                errorBody := [] }) 0 false []).err = none ∧
    "abc".data ≠ [] ∧ "abc".data ≠ formatNat 0 := by
  exact ⟨by decide, by decide, by decide⟩

/-- **C4 (amended).** After the body copy (200 response, resolvable algorithm
when required, matching algorithm header in BOTH mode), `DownloadFile` fails
when the `X-Content-Length` trailer is absent; otherwise it parses the
trailer with `strconv.ParseUint`, ignoring the error — a malformed trailer
counts as 0, an out-of-range one as `2^64 - 1` — reinterprets it as `int64`
and fails when it differs from the copied byte count; success implies the
trailer is present and its parsed value equals the byte count. -/
theorem C4_amended_content_length (chkMode chkAlgo : Nat) (r : RespModel)
    (received : Nat) (copyErr : Bool) (localHexRaw : List Char)
    (halg : chkMode = ChecksumNone ∨ getChecksumName chkAlgo ≠ [])
    (hst : r.status = 200)
    (hhdr : chkMode = ChecksumClientAndServer →
      toLowerChars r.headerChecksumAlgorithm = getChecksumName chkAlgo) :
    (r.trailerContentLength = [] →
      (downloadFileModel chkMode chkAlgo (some r) received copyErr localHexRaw).err =
        some .missingContentLength) ∧
    (r.trailerContentLength ≠ [] →
     int64OfUInt64 (goParseUint64 r.trailerContentLength) ≠ (received : Int) →
      (downloadFileModel chkMode chkAlgo (some r) received copyErr localHexRaw).err =
        some (.lengthMismatch (goParseUint64 r.trailerContentLength) received)) ∧
    ((downloadFileModel chkMode chkAlgo (some r) received copyErr localHexRaw).err = none →
      r.trailerContentLength ≠ [] ∧
      int64OfUInt64 (goParseUint64 r.trailerContentLength) = (received : Int)) := by
  have hne : ¬ (chkMode ≠ ChecksumNone ∧ getChecksumName chkAlgo = []) := by
    rcases halg with h | h <;> simp [h]
  have hst' : ¬ r.status ≠ 200 := by simp [hst]
  have hhdr' : ¬ (chkMode = ChecksumClientAndServer ∧
      getChecksumName chkAlgo ≠ toLowerChars r.headerChecksumAlgorithm) := by
    rintro ⟨hm, hx⟩
    exact hx (hhdr hm).symm
  refine ⟨?_, ?_, ?_⟩
  · intro hcl
    simp [downloadFileModel, hne, hst', hhdr', hcl]
  · intro hcl hmm
    simp [downloadFileModel, hne, hst', hhdr', hcl, hmm]
  · intro hok
    by_cases hcl : r.trailerContentLength = []
    · simp [downloadFileModel, hne, hst', hhdr', hcl] at hok
    · by_cases hlen : int64OfUInt64 (goParseUint64 r.trailerContentLength) = (received : Int)
      · exact ⟨hcl, hlen⟩
      · simp [downloadFileModel, hne, hst', hhdr', hcl, hlen] at hok

/-- Witness for the amended C4: a successful mode-NONE download with trailer
`"5"` and 5 bytes copied has a present trailer parsing to the copied count. -/
theorem C4_witness :
    ("5".data : List Char) ≠ [] ∧
    int64OfUInt64 (goParseUint64 "5".data) = ((5 : Nat) : Int) :=
  (C4_amended_content_length ChecksumNone SHA256 ⟨200, [], "5".data, [], []⟩ 5 false []
    (Or.inl rfl) rfl (fun h => absurd h (by decide))).2.2 (by decide)

/-- **C6 counterexample.** A successful SERVER_ONLY download whose response
carries the server-computed checksum `"abcd"` in the `X-Checksum-Value`
trailer yields `Checksum = "sha256:"` with an empty hex part — not
`"sha256:abcd"` as the claim requires when a server-reported value is
present — because the client reads that trailer only in BOTH mode. -/
theorem C6_counterexample :
    downloadFileModel ChecksumServerOnly SHA256
        (some { status := 200, headerChecksumAlgorithm := "sha256".data
                trailerContentLength := "5".data, trailerChecksumValue := "abcd".data
                errorBody := [] }) 5 false [] =
      { checksum := "sha256:".data, err := none } ∧
    ("sha256:".data : List Char) ≠ "sha256:abcd".data := by
  exact ⟨by decide, by decide⟩

/-- **C6 (amended).** On every successful download, `DownloadReport.Checksum`
is `algo:hex` where the hex part is: the lowercased locally computed hash for
CLIENT_ONLY; the lowercased server trailer value for BOTH (validation having
ensured it equals the local hash); and empty for SERVER_ONLY — the
server-sent `X-Checksum-Value` trailer is not read in that mode. For NONE the
checksum is empty. -/
theorem C6_amended_report_checksum (chkAlgo : Nat) (r : RespModel) (received : Nat)
    (copyErr : Bool) (localHexRaw : List Char) :
    ((downloadFileModel ChecksumClientOnly chkAlgo (some r) received copyErr
        localHexRaw).err = none →
      (downloadFileModel ChecksumClientOnly chkAlgo (some r) received copyErr
          localHexRaw).checksum =
        getChecksumName chkAlgo ++ ':' :: toLowerChars localHexRaw) ∧
    ((downloadFileModel ChecksumServerOnly chkAlgo (some r) received copyErr
        localHexRaw).err = none →
      (downloadFileModel ChecksumServerOnly chkAlgo (some r) received copyErr
          localHexRaw).checksum = getChecksumName chkAlgo ++ [':']) ∧
    ((downloadFileModel ChecksumClientAndServer chkAlgo (some r) received copyErr
        localHexRaw).err = none →
      (downloadFileModel ChecksumClientAndServer chkAlgo (some r) received copyErr
          localHexRaw).checksum =
        getChecksumName chkAlgo ++ ':' :: toLowerChars r.trailerChecksumValue ∧
      toLowerChars r.trailerChecksumValue = toLowerChars localHexRaw) ∧
    ((downloadFileModel ChecksumNone chkAlgo (some r) received copyErr
        localHexRaw).err = none →
      (downloadFileModel ChecksumNone chkAlgo (some r) received copyErr
          localHexRaw).checksum = []) := by
  refine ⟨?_, ?_, ?_, ?_⟩ <;> intro hok
  · by_cases halg : getChecksumName chkAlgo = []
    · simp [downloadFileModel, halg, ChecksumClientOnly, ChecksumNone] at hok
    · by_cases hstt : r.status = 200
      · by_cases hcl : r.trailerContentLength = []
        · simp [downloadFileModel, halg, hstt, hcl, ChecksumClientOnly, ChecksumNone,
            ChecksumClientAndServer] at hok
        · by_cases hlen :
            int64OfUInt64 (goParseUint64 r.trailerContentLength) = (received : Int)
          · simp [downloadFileModel, halg, hstt, hcl, hlen, ChecksumClientOnly,
              ChecksumNone, ChecksumClientAndServer]
          · simp [downloadFileModel, halg, hstt, hcl, hlen, ChecksumClientOnly,
              ChecksumNone, ChecksumClientAndServer] at hok
      · simp [downloadFileModel, halg, hstt, ChecksumClientOnly, ChecksumNone] at hok
  · by_cases halg : getChecksumName chkAlgo = []
    · simp [downloadFileModel, halg, ChecksumServerOnly, ChecksumNone] at hok
    · by_cases hstt : r.status = 200
      · by_cases hcl : r.trailerContentLength = []
        · simp [downloadFileModel, halg, hstt, hcl, ChecksumServerOnly, ChecksumNone,
            ChecksumClientAndServer, ChecksumClientOnly] at hok
        · by_cases hlen :
            int64OfUInt64 (goParseUint64 r.trailerContentLength) = (received : Int)
          · simp [downloadFileModel, halg, hstt, hcl, hlen, ChecksumServerOnly,
              ChecksumNone, ChecksumClientAndServer, ChecksumClientOnly]
          · simp [downloadFileModel, halg, hstt, hcl, hlen, ChecksumServerOnly,
              ChecksumNone, ChecksumClientAndServer, ChecksumClientOnly] at hok
      · simp [downloadFileModel, halg, hstt, ChecksumServerOnly, ChecksumNone] at hok
  · by_cases halg : getChecksumName chkAlgo = []
    · simp [downloadFileModel, halg, ChecksumClientAndServer, ChecksumNone] at hok
    · by_cases hstt : r.status = 200
      · by_cases hhdr : getChecksumName chkAlgo = toLowerChars r.headerChecksumAlgorithm
        · have halg2 : toLowerChars r.headerChecksumAlgorithm ≠ [] := hhdr ▸ halg
          by_cases hcl : r.trailerContentLength = []
          · simp [downloadFileModel, halg, halg2, hstt, hhdr, hcl, ChecksumClientAndServer,
              ChecksumNone, ChecksumClientOnly] at hok
          · by_cases hlen :
              int64OfUInt64 (goParseUint64 r.trailerContentLength) = (received : Int)
            · by_cases hcv : toLowerChars r.trailerChecksumValue = []
              · simp [downloadFileModel, halg, halg2, hstt, hhdr, hcl, hlen, hcv,
                  ChecksumClientAndServer, ChecksumNone, ChecksumClientOnly] at hok
              · by_cases hmis : toLowerChars localHexRaw = toLowerChars r.trailerChecksumValue
                · refine ⟨?_, hmis.symm⟩
                  simp [downloadFileModel, halg, halg2, hstt, hhdr, hcl, hlen, hcv, hmis,
                    ChecksumClientAndServer, ChecksumNone, ChecksumClientOnly]
                · simp [downloadFileModel, halg, halg2, hstt, hhdr, hcl, hlen, hcv, hmis,
                    ChecksumClientAndServer, ChecksumNone, ChecksumClientOnly] at hok
            · simp [downloadFileModel, halg, halg2, hstt, hhdr, hcl, hlen,
                ChecksumClientAndServer, ChecksumNone, ChecksumClientOnly] at hok
        · simp [downloadFileModel, halg, hstt, hhdr, ChecksumClientAndServer,
            ChecksumNone] at hok
      · simp [downloadFileModel, halg, hstt, ChecksumClientAndServer, ChecksumNone] at hok
  · by_cases hstt : r.status = 200
    · by_cases hcl : r.trailerContentLength = []
      · simp [downloadFileModel, hstt, hcl, ChecksumNone, ChecksumClientAndServer,
          ChecksumClientOnly] at hok
      · by_cases hlen :
          int64OfUInt64 (goParseUint64 r.trailerContentLength) = (received : Int)
        · simp [downloadFileModel, hstt, hcl, hlen, ChecksumNone,
            ChecksumClientAndServer, ChecksumClientOnly]
        · simp [downloadFileModel, hstt, hcl, hlen, ChecksumNone,
            ChecksumClientAndServer, ChecksumClientOnly] at hok
    · simp [downloadFileModel, hstt, ChecksumNone] at hok

/-- Witness for the amended C6: a successful SERVER_ONLY download reports
`"sha256:"` with an empty hex part. -/
theorem C6_witness :
    (downloadFileModel ChecksumServerOnly SHA256
        (some ⟨200, "sha256".data, "5".data, "abcd".data, []⟩) 5 false []).checksum =
      getChecksumName SHA256 ++ [':'] :=
  (C6_amended_report_checksum SHA256 ⟨200, "sha256".data, "5".data, "abcd".data, []⟩
    5 false []).2.1 (by decide)

/-- **C10.** `DownloadFile` never inspects the error returned by copying the
response body: the whole report is the same function of the response, byte
count and checksum data whether or not the copy failed; and whenever the
`X-Content-Length` trailer parses (Go `ParseUint`, error ignored) to the
copied count and the mode's checksum conditions hold, the report's error is
`nil` for both copy outcomes. -/
theorem C10_copy_error_ignored :
    (∀ (chkMode chkAlgo : Nat) (resp : Option RespModel) (received : Nat)
        (localHexRaw : List Char),
      downloadFileModel chkMode chkAlgo resp received true localHexRaw =
        downloadFileModel chkMode chkAlgo resp received false localHexRaw) ∧
    (∀ (chkMode chkAlgo : Nat) (r : RespModel) (received : Nat)
        (localHexRaw : List Char),
      r.status = 200 →
      (chkMode = ChecksumNone ∨ getChecksumName chkAlgo ≠ []) →
      (chkMode = ChecksumClientAndServer →
        toLowerChars r.headerChecksumAlgorithm = getChecksumName chkAlgo ∧
        toLowerChars r.trailerChecksumValue ≠ [] ∧
        toLowerChars localHexRaw = toLowerChars r.trailerChecksumValue) →
      r.trailerContentLength ≠ [] →
      int64OfUInt64 (goParseUint64 r.trailerContentLength) = (received : Int) →
      ∀ copyErr,
        (downloadFileModel chkMode chkAlgo (some r) received copyErr localHexRaw).err =
          none) := by
  constructor
  · intro chkMode chkAlgo resp received localHexRaw
    rfl
  · intro chkMode chkAlgo r received localHexRaw hst halg hboth hcl hlen copyErr
    have hne : ¬ (chkMode ≠ ChecksumNone ∧ getChecksumName chkAlgo = []) := by
      rcases halg with h | h <;> simp [h]
    have hst' : ¬ r.status ≠ 200 := by simp [hst]
    by_cases hm : chkMode = ChecksumClientAndServer
    · obtain ⟨h1, h2, h3⟩ := hboth hm
      have hhdr' : getChecksumName chkAlgo = toLowerChars r.headerChecksumAlgorithm :=
        h1.symm
      have halg2 : toLowerChars r.headerChecksumAlgorithm ≠ [] := hhdr' ▸ (by
        rcases halg with h | h
        · rw [h] at hm; exact absurd hm (by decide)
        · exact h)
      simp [downloadFileModel, hm, hne, hst', hhdr', halg2, hcl, hlen, h2, h3,
        ChecksumClientAndServer, ChecksumNone, ChecksumClientOnly]
    · have hhdr' : ¬ (chkMode = ChecksumClientAndServer ∧
          getChecksumName chkAlgo ≠ toLowerChars r.headerChecksumAlgorithm) := by
        simp [hm]
      have hsv : ¬ (chkMode = ChecksumClientAndServer ∧
          (if chkMode = ChecksumClientAndServer
           then toLowerChars r.trailerChecksumValue else []) = []) := by
        simp [hm]
      simp [downloadFileModel, hne, hst', hhdr', hm, hcl, hlen]

/-- Witness for C10: a BOTH-mode download whose copy fails mid-stream but
whose trailer and checksum checks pass still reports a nil error, and the
report equals the no-copy-error one. -/
theorem C10_witness :
    downloadFileModel ChecksumClientAndServer SHA256
        (some ⟨200, "sha256".data, "5".data, "abc".data, []⟩) 5 true "abc".data =
      downloadFileModel ChecksumClientAndServer SHA256
        (some ⟨200, "sha256".data, "5".data, "abc".data, []⟩) 5 false "abc".data ∧
    (downloadFileModel ChecksumClientAndServer SHA256
        (some ⟨200, "sha256".data, "5".data, "abc".data, []⟩) 5 true "abc".data).err =
      none :=
  ⟨C10_copy_error_ignored.1 ChecksumClientAndServer SHA256
      (some ⟨200, "sha256".data, "5".data, "abc".data, []⟩) 5 "abc".data,
    C10_copy_error_ignored.2 ChecksumClientAndServer SHA256
      ⟨200, "sha256".data, "5".data, "abc".data, []⟩ 5 "abc".data rfl
      (Or.inr (by decide)) (fun _ => ⟨by decide, by decide, by decide⟩)
      (by decide) (by decide) true⟩

/-! ## Size-parsing characterization (C2) -/

theorem isDigit_not_special {c : Char} (h : c.isDigit = true) :
    c ≠ '-' ∧ c ≠ '+' ∧ c ≠ 'K' ∧ c ≠ 'M' ∧ c ≠ 'G' := by
  refine ⟨?_, ?_, ?_, ?_, ?_⟩ <;> rintro rfl <;> exact absurd h (by decide)

theorem parseIntCore_eq_some_iff {neg : Bool} {ds : List Char} {n : Int} :
    parseIntCore neg ds = some n ↔
      ds ≠ [] ∧ isDigits ds = true ∧ n = signedVal neg ds ∧
      -(2 ^ 63) ≤ n ∧ n ≤ 2 ^ 63 - 1 := by
  unfold parseIntCore
  by_cases h1 : ds = []
  · simp [h1]
  · by_cases h2 : isDigits ds
    · by_cases h3 : signedVal neg ds < -(2 ^ 63) ∨ 2 ^ 63 - 1 < signedVal neg ds
      · rw [if_neg h1, if_neg (by simp [h2]), if_pos h3]
        constructor
        · intro h
          cases h
        · rintro ⟨-, -, rfl, h4, h5⟩
          omega
      · rw [if_neg h1, if_neg (by simp [h2]), if_neg h3]
        constructor
        · intro h
          injection h with h
          refine ⟨h1, h2, h.symm, ?_, ?_⟩ <;> omega
        · rintro ⟨-, -, rfl, -, -⟩
          rfl
    · rw [if_neg h1, if_pos (by simp [h2])]
      constructor
      · intro h
        cases h
      · rintro ⟨-, hdig, -⟩
        exact absurd hdig h2

theorem parseInt64_eq_some_iff {t : List Char} {n : Int} :
    parseInt64 t = some n ↔
      ∃ (sgn ds : List Char) (neg : Bool),
        t = sgn ++ ds ∧
        ((sgn = [] ∧ neg = false) ∨ (sgn = ['+'] ∧ neg = false) ∨
          (sgn = ['-'] ∧ neg = true)) ∧
        parseIntCore neg ds = some n := by
  constructor
  · intro h
    match t with
    | [] => cases h
    | c :: rest =>
      by_cases hcm : c = '-'
      · subst hcm
        rw [parseInt64, if_pos rfl] at h
        exact ⟨['-'], rest, true, rfl, Or.inr (Or.inr ⟨rfl, rfl⟩), h⟩
      · by_cases hcp : c = '+'
        · subst hcp
          rw [parseInt64, if_neg (by decide), if_pos rfl] at h
          exact ⟨['+'], rest, false, rfl, Or.inr (Or.inl ⟨rfl, rfl⟩), h⟩
        · rw [parseInt64, if_neg hcm, if_neg hcp] at h
          exact ⟨[], c :: rest, false, rfl, Or.inl ⟨rfl, rfl⟩, h⟩
  · rintro ⟨sgn, ds, neg, rfl, hsgn, hcore⟩
    obtain ⟨hne, hdig, -⟩ := parseIntCore_eq_some_iff.mp hcore
    rcases hsgn with ⟨rfl, rfl⟩ | ⟨rfl, rfl⟩ | ⟨rfl, rfl⟩
    · match ds, hne with
      | c :: rest, _ =>
        have hcd : c.isDigit = true := by
          have := (List.all_eq_true.mp hdig) c (List.mem_cons_self c rest)
          simpa using this
        obtain ⟨hm, hp, -, -, -⟩ := isDigit_not_special hcd
        rw [List.nil_append]
        rw [parseInt64, if_neg hm, if_neg hp]
        exact hcore
    · rw [List.cons_append, List.nil_append]
      rw [parseInt64, if_neg (by decide), if_pos rfl]
      exact hcore
    · rw [List.cons_append, List.nil_append]
      rw [parseInt64, if_pos rfl]
      exact hcore

theorem getLast?_append_right {l ds : List Char} {d : Char} (h : ds.getLast? = some d) :
    (l ++ ds).getLast? = some d := by
  rw [List.getLast?_append, h]
  rfl

theorem exists_getLast?_mem {ds : List Char} (h : ds ≠ []) :
    ∃ d, ds.getLast? = some d ∧ d ∈ ds := by
  obtain ⟨d, hd⟩ := Option.isSome_iff_exists.mp (List.getLast?_isSome.mpr h)
  obtain ⟨ys, rfl⟩ := List.getLast?_eq_some_iff.mp hd
  exact ⟨d, hd, by simp⟩

/-- **C2 counterexample.** `parseSize` accepts `"18014398509481985K"` and
returns 1024, although the intended value 18014398509481985 × 1024 =
2^64 + 1024 is far above 1 TiB: the multiplication `res *= factor` wraps
around `int64`. Under the claim — only decimal integers with suffix
interpreted as 1024-powers and result in `(0, 1 TiB]` are accepted — this
input must be an error. -/
theorem C2_counterexample :
    parseSize "18014398509481985K".data = some 1024 ∧
    ¬ ((18014398509481985 : Int) * 1024 ≤ TB) ∧
    (18014398509481985 : Int) * 1024 ≠ 1024 := by
  exact ⟨by decide, by decide, by decide⟩

/-- **C2 (amended).** `parseSize` accepts exactly the optionally signed
decimal integers with at most one `K`/`M`/`G` suffix (1024-powers) whose
`int64`-wrapped product with the factor lies in `(0, 1 TiB]`, and returns
that wrapped product; because `res *= factor` wraps around `int64`, inputs
whose mathematical value is far above 1 TiB can be accepted. The spec's
examples hold: `parse("1K") = 1024`, `parse("1M") = 1048576`,
`parse("1G") = 1073741824`, and `"0"`, `"-5"`, `""`, `"2T"` error. -/
theorem C2_amended_parseSize :
    (∀ (s : List Char) (v : Int), parseSize s = some v ↔ sizeSpec s v) ∧
    parseSize "1K".data = some 1024 ∧ parseSize "1M".data = some 1048576 ∧
    parseSize "1G".data = some 1073741824 ∧ parseSize "0".data = none ∧
    parseSize "-5".data = none ∧ parseSize "".data = none ∧
    parseSize "2T".data = none := by
  refine ⟨fun s v => ⟨?_, ?_⟩, by decide, by decide, by decide, by decide, by decide,
    by decide, by decide⟩
  · intro h
    rw [parseSize] at h
    by_cases hs : s = []
    · rw [if_pos hs] at h
      cases h
    · rw [if_neg hs] at h
      rcases hp : parseInt64 (sizeSuffix s).2 with _ | res
      · rw [hp] at h
        cases h
      · rw [hp] at h
        simp only [] at h
        by_cases hr : wrap64 (res * (sizeSuffix s).1) ≤ 0 ∨
            TB < wrap64 (res * (sizeSuffix s).1)
        · rw [if_pos hr] at h
          cases h
        · rw [if_neg hr] at h
          injection h with h
          push_neg at hr
          by_cases hK : s.getLast? = some 'K'
          · obtain ⟨ys, rfl⟩ := List.getLast?_eq_some_iff.mp hK
            have hsfx : sizeSuffix (ys ++ ['K']) = (KB, ys) := by
              rw [sizeSuffix, if_pos (List.getLast?_concat ys), List.dropLast_concat]
            rw [hsfx] at hp h hr
            obtain ⟨sgn, ds, neg, rfl, hsgn, hcore⟩ := parseInt64_eq_some_iff.mp hp
            obtain ⟨hne, hdig, hres, -, -⟩ := parseIntCore_eq_some_iff.mp hcore
            subst hres
            obtain ⟨-, -, hres2, hlb, hub⟩ := parseIntCore_eq_some_iff.mp hcore
            exact ⟨sgn, ds, ['K'], neg, KB, by simp, hsgn,
              Or.inr (Or.inl ⟨rfl, rfl⟩), hne, hdig, hres2 ▸ hlb, hres2 ▸ hub,
              by rw [← h, ← hres2], by rw [← h]; exact hr.1, by rw [← h]; exact hr.2⟩
          · by_cases hM : s.getLast? = some 'M'
            · obtain ⟨ys, rfl⟩ := List.getLast?_eq_some_iff.mp hM
              have hsfx : sizeSuffix (ys ++ ['M']) = (MB, ys) := by
                rw [sizeSuffix, if_neg hK, if_pos (List.getLast?_concat ys),
                  List.dropLast_concat]
              rw [hsfx] at hp h hr
              obtain ⟨sgn, ds, neg, rfl, hsgn, hcore⟩ := parseInt64_eq_some_iff.mp hp
              obtain ⟨hne, hdig, hres, -, -⟩ := parseIntCore_eq_some_iff.mp hcore
              subst hres
              obtain ⟨-, -, hres2, hlb, hub⟩ := parseIntCore_eq_some_iff.mp hcore
              exact ⟨sgn, ds, ['M'], neg, MB, by simp, hsgn,
                Or.inr (Or.inr (Or.inl ⟨rfl, rfl⟩)), hne, hdig, hres2 ▸ hlb, hres2 ▸ hub,
                by rw [← h, ← hres2], by rw [← h]; exact hr.1, by rw [← h]; exact hr.2⟩
            · by_cases hG : s.getLast? = some 'G'
              · obtain ⟨ys, rfl⟩ := List.getLast?_eq_some_iff.mp hG
                have hsfx : sizeSuffix (ys ++ ['G']) = (GB, ys) := by
                  rw [sizeSuffix, if_neg hK, if_neg hM,
                    if_pos (List.getLast?_concat ys), List.dropLast_concat]
                rw [hsfx] at hp h hr
                obtain ⟨sgn, ds, neg, rfl, hsgn, hcore⟩ := parseInt64_eq_some_iff.mp hp
                obtain ⟨hne, hdig, hres, -, -⟩ := parseIntCore_eq_some_iff.mp hcore
                subst hres
                obtain ⟨-, -, hres2, hlb, hub⟩ := parseIntCore_eq_some_iff.mp hcore
                exact ⟨sgn, ds, ['G'], neg, GB, by simp, hsgn,
                  Or.inr (Or.inr (Or.inr ⟨rfl, rfl⟩)), hne, hdig, hres2 ▸ hlb,
                  hres2 ▸ hub, by rw [← h, ← hres2], by rw [← h]; exact hr.1,
                  by rw [← h]; exact hr.2⟩
              · have hsfx : sizeSuffix s = (1, s) := by
                  rw [sizeSuffix, if_neg hK, if_neg hM, if_neg hG]
                rw [hsfx] at hp h hr
                obtain ⟨sgn, ds, neg, rfl, hsgn, hcore⟩ := parseInt64_eq_some_iff.mp hp
                obtain ⟨hne, hdig, hres, -, -⟩ := parseIntCore_eq_some_iff.mp hcore
                subst hres
                obtain ⟨-, -, hres2, hlb, hub⟩ := parseIntCore_eq_some_iff.mp hcore
                exact ⟨sgn, ds, [], neg, 1, by simp, hsgn, Or.inl ⟨rfl, rfl⟩,
                  hne, hdig, hres2 ▸ hlb, hres2 ▸ hub, by rw [← h, ← hres2],
                  by rw [← h]; exact hr.1, by rw [← h]; exact hr.2⟩
  · rintro ⟨sgn, ds, suf, neg, factor, rfl, hsgn, hsuf, hne, hdig, hlb, hub, hv, hpos, hle⟩
    have hcore : parseIntCore neg ds = some (signedVal neg ds) :=
      parseIntCore_eq_some_iff.mpr ⟨hne, hdig, rfl, hlb, hub⟩
    have hp64 : parseInt64 (sgn ++ ds) = some (signedVal neg ds) :=
      parseInt64_eq_some_iff.mpr ⟨sgn, ds, neg, rfl, hsgn, hcore⟩
    have hsne : sgn ++ ds ++ suf ≠ [] := by
      intro hnil
      rcases List.append_eq_nil.mp hnil with ⟨h1, -⟩
      exact hne (List.append_eq_nil.mp h1).2
    rcases hsuf with ⟨rfl, rfl⟩ | ⟨rfl, rfl⟩ | ⟨rfl, rfl⟩ | ⟨rfl, rfl⟩
    · -- no suffix
      obtain ⟨d, hd, hdm⟩ := exists_getLast?_mem hne
      have hdd : d.isDigit = true := by
        have := (List.all_eq_true.mp hdig) d hdm
        simpa using this
      obtain ⟨-, -, hdK, hdM, hdG⟩ := isDigit_not_special hdd
      have hlast : (sgn ++ ds).getLast? = some d := getLast?_append_right hd
      have hsfx : sizeSuffix (sgn ++ ds ++ []) = (1, sgn ++ ds) := by
        rw [List.append_nil]
        rw [sizeSuffix, if_neg (by rw [hlast]; simp [hdK]),
          if_neg (by rw [hlast]; simp [hdM]), if_neg (by rw [hlast]; simp [hdG])]
      rw [parseSize, if_neg hsne, hsfx]
      dsimp only
      rw [hp64]
      dsimp only
      rw [if_neg (by rw [← hv]; omega), hv]
    · -- suffix K
      have hsfx : sizeSuffix (sgn ++ ds ++ ['K']) = (KB, sgn ++ ds) := by
        rw [sizeSuffix, if_pos (List.getLast?_concat (sgn ++ ds)), List.dropLast_concat]
      rw [parseSize, if_neg hsne, hsfx]
      dsimp only
      rw [hp64]
      dsimp only
      rw [if_neg (by rw [← hv]; omega), hv]
    · -- suffix M
      have hsfx : sizeSuffix (sgn ++ ds ++ ['M']) = (MB, sgn ++ ds) := by
        rw [sizeSuffix, if_neg (by rw [List.getLast?_concat]; decide),
          if_pos (List.getLast?_concat (sgn ++ ds)), List.dropLast_concat]
      rw [parseSize, if_neg hsne, hsfx]
      dsimp only
      rw [hp64]
      dsimp only
      rw [if_neg (by rw [← hv]; omega), hv]
    · -- suffix G
      have hsfx : sizeSuffix (sgn ++ ds ++ ['G']) = (GB, sgn ++ ds) := by
        rw [sizeSuffix, if_neg (by rw [List.getLast?_concat]; decide),
          if_neg (by rw [List.getLast?_concat]; decide),
          if_pos (List.getLast?_concat (sgn ++ ds)), List.dropLast_concat]
      rw [parseSize, if_neg hsne, hsfx]
      dsimp only
      rw [hp64]
      dsimp only
      rw [if_neg (by rw [← hv]; omega), hv]

/-- Witness for the amended C2: `"+3K"` is accepted with value 3072, and the
characterization applies to it. -/
theorem C2_witness : sizeSpec "+3K".data 3072 :=
  (C2_amended_parseSize.1 "+3K".data 3072).mp (by decide)

end Chasqui
